import Mathlib

set_option linter.unusedVariables false

/-!
Shallow embedding of the telegraf gitlab input plugin
(src/plugins/inputs/gitlab/gitlab.go, together with the two earlier
variants of the same file kept under src/unnamed/).

Strings are modelled as `List Char`.  The two Go regular expressions use
only the ASCII classes `[a-zA-Z]`, `\W` and `\d`, so their matching is
embedded directly as greedy scanners (for these patterns greedy matching
never needs backtracking: shortening a run of letters only exposes a
letter, which can never satisfy the following `\W`).
-/

/-- The `[a-zA-Z]` class of the Go regexes. -/
def isLetterChar (c : Char) : Bool := c.isAlpha

/-- The `\d` class of the Go regexes. -/
def isDigitChar (c : Char) : Bool := c.isDigit

/-- Go regexp word class `\w` = `[0-9A-Za-z_]`; `\W` is its complement. -/
def isWordCharB (c : Char) : Bool := c.isAlpha || c.isDigit || c == '_'

/-- Greedy span: the maximal leading run satisfying `p`, and the rest. -/
def spanWhile (p : Char → Bool) : List Char → List Char × List Char
  | [] => ([], [])
  | c :: t =>
    if p c then
      let r := spanWhile p t
      (c :: r.1, r.2)
    else ([], c :: t)

/-- Attempt of the regex `[a-zA-Z]+\W\d{2,5}` (findTicketID, gitlab.go line
197) at the head of `s`: greedy letters, one non-word character, then two
to five digits (greedy).  Returns the matched text. -/
def ticketMatchAt (s : List Char) : Option (List Char) :=
  match spanWhile isLetterChar s with
  | (ls, c :: rest) =>
    if ls.isEmpty then none
    else if isWordCharB c then none
    else if (((spanWhile isDigitChar rest).1).take 5).length < 2 then none
    else some (ls ++ c :: ((spanWhile isDigitChar rest).1).take 5)
  | (_, []) => none

/-- findTicketID (gitlab.go lines 195-201): `regexp.FindString` of
`[a-zA-Z]+\W\d{2,5}`, i.e. the leftmost match, or the empty string when
there is none. -/
def findTicketID : List Char → List Char
  | [] => []
  | c :: t =>
    match ticketMatchAt (c :: t) with
    | some m => m
    | none => findTicketID t

/-- The replacement performed by `strings.NewReplacer("/", "-", " ", "-",
":", "-")` on a single character (all patterns are one character long). -/
def sepToDash (c : Char) : Char :=
  if c == '/' || c == ' ' || c == ':' then '-' else c

/-- formatTicketID (gitlab.go lines 203-208): the replacer pass followed by
`strings.ToUpper` (ASCII fragment). -/
def formatTicketID (s : List Char) : List Char :=
  (s.map sepToDash).map Char.toUpper

/-- Attempt of the anchored regex `^[a-zA-Z]+\W[a-zA-Z]+\W\d{2,5}`
(getMRType, gitlab.go line 212) at the start of `s`: greedy letters, one
non-word character, and then the remainder must begin with the ticket
pattern — the tail `[a-zA-Z]+\W\d{2,5}` of this regex is exactly the
ticket regex, attempted at the head of the remainder. -/
def typeMatchAt (s : List Char) : Option (List Char) :=
  match spanWhile isLetterChar s with
  | (ls1, c1 :: r1) =>
    if ls1.isEmpty then none
    else if isWordCharB c1 then none
    else
      match ticketMatchAt r1 with
      | some t => some (ls1 ++ c1 :: t)
      | none => none
  | (_, []) => none

/-- The first element of `strings.Split(data, "-")`: the part of `data`
before its first dash (`data` itself when there is no dash). -/
def firstSegment (s : List Char) : List Char :=
  s.takeWhile (fun c => !(c == '-'))

/-- getMRType (gitlab.go lines 210-219): anchored match (empty on failure),
normalised by formatTicketID, split on dashes, first segment. -/
def getMRType (s : List Char) : List Char :=
  let sr := match typeMatchAt s with
    | some m => m
    | none => []
  firstSegment (formatTicketID sr)

/-- Full-string test of the pattern "run of `cls`, then exactly one
non-word separator, then 2-5 digits": a decidable rendering of the spec's
description of the ticket-token pattern, parameterised by the class of the
leading run (`isLetterChar` reads it as the code's `[a-zA-Z]`,
`isWordCharB` as the spec's "word-characters"). -/
def isTicketShape (cls : Char → Bool) (m : List Char) : Bool :=
  (List.range (m.length + 1)).any fun a =>
    let L := m.take a
    match m.drop a with
    | c :: ds =>
      !L.isEmpty && L.all cls && !isWordCharB c &&
        ds.all isDigitChar && decide (2 ≤ ds.length) && decide (ds.length ≤ 5)
    | [] => false

/-- There is a substring of `s` starting at position `i` that matches the
ticket pattern with leading class `cls`. -/
def hasTicketAt (cls : Char → Bool) (s : List Char) (i : Nat) : Bool :=
  (List.range ((s.drop i).length + 1)).any fun k =>
    isTicketShape cls ((s.drop i).take k)

/-- Full-string test of the pattern "run of `cls`, one non-word separator,
another run of `cls`, one non-word separator, then 2-5 digits": the spec's
description of the type pattern (anchoring is expressed by applying it to
prefixes of the title).  The part after the first separator is exactly
the ticket shape. -/
def isTypeShape (cls : Char → Bool) (m : List Char) : Bool :=
  (List.range (m.length + 1)).any fun a =>
    match m.drop a with
    | c1 :: r1 =>
      !(m.take a).isEmpty && (m.take a).all cls && !isWordCharB c1 &&
        isTicketShape cls r1
    | [] => false

/-!
The collection side.  Fetch operations are modelled as functions from a
page number to `Except E (List ι)`: an error means the page's items were
not delivered (the Go convention for `(items, resp, err)` results).  The
walkers are embedded with an explicit fuel bound on the number of loop
iterations; `none` means the loop was still running when the fuel ran
out.  Each walker returns the emitted records, the page numbers it
fetched, and the errors it passed to `acc.AddError`, in order.  Note that
the fetch signature offers neither a total count nor a has-more flag, so
no embedded walker can consult one.
-/

/-- A merge request as consumed by the walker: its title drives the two
derived tags; `fields` stands for all the remaining copied fields
(upvotes, author, state, resolved project names, ...). -/
structure MergeRequest (α : Type) where
  title : List Char
  fields : α
deriving DecidableEq

/-- The record emitted for one merge request. -/
structure MRRecord (α : Type) where
  jiraTicketID : List Char
  mergeRequestType : List Char
  fields : α
deriving DecidableEq

/-- The per-item record construction of fetchMergeRequests (gitlab.go
lines 159-185): `ticketID := formatTicketID(findTicketID(mr.Title))`,
`mrType := getMRType(mr.Title)`, remaining fields copied. -/
def mkMRRecord {α : Type} (mr : MergeRequest α) : MRRecord α :=
  { jiraTicketID := formatTicketID (findTicketID mr.title)
    mergeRequestType := getMRType mr.title
    fields := mr.fields }

/-- The pagination loop of fetchMergeRequests (gitlab.go lines 146-192),
generic over the item type and the record builder; the source sets
`pp := 100` and starts at `page := 0`.  One iteration: fetch the page; on
error report it and break; otherwise emit a record per item, advance the
cursor, and break exactly when the page held fewer than `pp` items. -/
def mrLoop {ι ρ E : Type} (fetch : Nat → Except E (List ι)) (emit : ι → ρ) (pp : Nat) :
    Nat → Nat → Option (List ρ × List Nat × List E)
  | 0, _ => none
  | fuel + 1, page =>
    match fetch page with
    | .error e => some ([], [page], [e])
    | .ok mrs =>
      if mrs.length < pp then
        some (mrs.map emit, [page], [])
      else
        match mrLoop fetch emit pp fuel (page + 1) with
        | none => none
        | some (recs, pages, errs) => some (mrs.map emit ++ recs, page :: pages, errs)

/-- fetchMergeRequests (gitlab.go lines 144-193): the loop above with
`pp := 100`, `page := 0` and the merge-request record builder. -/
def fetchMergeRequests {α E : Type} (fetch : Nat → Except E (List (MergeRequest α)))
    (fuel : Nat) : Option (List (MRRecord α) × List Nat × List E) :=
  mrLoop fetch mkMRRecord 100 fuel 0

/-- fetchMergeRequests with the collector's context made explicit:
`ctx page = true` says the shared cancellation signal had already been
triggered when page `page` was about to be fetched.  The Go body has
`h.ctx` in scope but never reads it, so the parameter is unused. -/
def fetchMergeRequestsCtx {α E : Type} (ctx : Nat → Bool)
    (fetch : Nat → Except E (List (MergeRequest α))) (fuel : Nat) :
    Option (List (MRRecord α) × List Nat × List E) :=
  fetchMergeRequests fetch fuel

/-- The record emitted for one commit: every field and tag is copied
verbatim from the commit (gitlab.go lines 115-133). -/
structure CommitRecord (γ : Type) where
  commit : γ
deriving DecidableEq

/-- The per-item record construction of fetchCommits. -/
def mkCommitRecord {γ : Type} (c : γ) : CommitRecord γ := ⟨c⟩

/-- The inner pagination loop of fetchCommits (gitlab.go lines 106-140).
Unlike the merge-request loop there is no break on a fetch error: the
error is reported, the (empty) item list is traversed, and the loop then
ends through the short-page test. -/
def commitLoop {ι ρ E : Type} (fetch : Nat → Except E (List ι)) (emit : ι → ρ) (pp : Nat) :
    Nat → Nat → Option (List ρ × List Nat × List E)
  | 0, _ => none
  | fuel + 1, page =>
    let step : List ι × List E :=
      match fetch page with
      | .error e => ([], [e])
      | .ok cs => (cs, [])
    if step.1.length < pp then
      some (step.1.map emit, [page], step.2)
    else
      match commitLoop fetch emit pp fuel (page + 1) with
      | none => none
      | some (recs, pages, errs) =>
        some (step.1.map emit ++ recs, page :: pages, step.2 ++ errs)

/-- mapkey (gitlab.go lines 221-230): the first key whose value equals
`value`, with Go's zero values `(0, false)` when there is none.  The Go
map's iteration order is modelled by the association-list order. -/
def mapkey (m : List (Int × List Char)) (value : List Char) : Int × Bool :=
  match m with
  | [] => (0, false)
  | (k, v) :: rest => if v = value then (k, true) else mapkey rest value

/-- The errors fetchCommits hands to `acc.AddError`: the constant
"value does not exist in map" resolution error (line 103), and the
per-page "unable to list project" error naming the repo (line 113). -/
inductive CommitErr (E : Type) where
  | resolve
  | page (rep : List Char) (e : E)
deriving DecidableEq

/-- fetchCommits (gitlab.go lines 97-142): for each configured repo name,
resolve it with mapkey — on failure the error is reported but the source
has no `continue`, so the loop still runs, with the zero-value key — then
run the page loop with `pp := 100`, `page := 0`.  Returns the emitted
records, the (project key, page) pairs actually fetched, and the reported
errors. -/
def fetchCommits {γ E : Type} (projects : List (Int × List Char)) (repos : List (List Char))
    (fetchC : Int → Nat → Except E (List γ)) (fuel : Nat) :
    Option (List (CommitRecord γ) × List (Int × Nat) × List (CommitErr E)) :=
  match repos with
  | [] => some ([], [], [])
  | rep :: rest =>
    let r := mapkey projects rep
    let errs0 : List (CommitErr E) := if r.2 then [] else [CommitErr.resolve]
    match commitLoop (fetchC r.1) mkCommitRecord 100 fuel 0 with
    | none => none
    | some (recs, pages, errs) =>
      match fetchCommits projects rest fetchC fuel with
      | none => none
      | some (recs2, calls2, errs2) =>
        some (recs ++ recs2, pages.map (fun p => (r.1, p)) ++ calls2,
          errs0 ++ errs.map (CommitErr.page rep) ++ errs2)

/-- The goto-based pagination of the early Gather variant
(src/unnamed/part_000 lines 74-108): label getmr, fetch page `cp`, return
on error (modelled as the reported error, nothing emitted for that page),
emit the page, and `if len(mrs) == 100 { cp += 1; goto getmr }`. -/
def gatherGotoLoop {ι ρ E : Type} (fetch : Nat → Except E (List ι)) (emit : ι → ρ) :
    Nat → Nat → Option (List ρ × List Nat × List E)
  | 0, _ => none
  | fuel + 1, cp =>
    match fetch cp with
    | .error e => some ([], [cp], [e])
    | .ok mrs =>
      if mrs.length == 100 then
        match gatherGotoLoop fetch emit fuel (cp + 1) with
        | none => none
        | some (recs, pages, errs) => some (mrs.map emit ++ recs, cp :: pages, errs)
      else
        some (mrs.map emit, [cp], [])

/-- The lifecycle fields of the `Gitlab` struct that Stop dereferences;
`none` models the nil zero value. -/
structure GitlabState where
  cancel : Option Unit
  wg : Option Unit
deriving DecidableEq

/-- The zero-value collector produced by the registration factory
`func() telegraf.Input { return &Gitlab{} }` (gitlab.go line 233):
`cancel` and `wg` hold their nil zero values. -/
def initialGitlab : GitlabState := { cancel := none, wg := none }

/-- Outcome of running Stop: Go panics when a nil function is called or a
method is invoked on a nil pointer. -/
inductive StopOutcome where
  | panicked
  | returned
deriving DecidableEq

/-- Stop (gitlab.go lines 57-60): `h.cancel()` then `h.wg.Wait()`. -/
def runStop (s : GitlabState) : StopOutcome :=
  match s.cancel with
  | none => .panicked
  | some _ =>
    match s.wg with
    | none => .panicked
    | some _ => .returned

/-- The field initialisation Start performs (gitlab.go lines 63-64):
`h.ctx, h.cancel = context.WithCancel(...)` and `h.wg = &sync.WaitGroup{}`.
No other function writes these fields. -/
def startInit (s : GitlabState) : GitlabState :=
  { s with cancel := some (), wg := some () }

/-- The walker goroutines. -/
inductive Worker where
  | mergeRequests
  | commits
deriving DecidableEq

/-- The goroutines Start launches (gitlab.go lines 92-93). -/
def launchedWorkers : List Worker := [Worker.mergeRequests, Worker.commits]

/-- The walkers the shutdown wait group actually covers: Start performs a
single `wg.Add(1)` (line 65) and only fetchMergeRequests carries the
matching `defer h.wg.Done()` (line 145); fetchCommits never touches the
wait group. -/
def wgCoveredWorkers : List Worker := [Worker.mergeRequests]

/-- Page `p` of size-`P` pagination over a finite source list: the model
of an API holding exactly `items.length` items, used to state the
walker's counting properties. -/
def pagedFetch {ι : Type} (items : List ι) (P p : Nat) : List ι :=
  (items.drop (p * P)).take P

/-! Helper lemmas about the greedy span. -/

theorem spanWhile_append (p : Char → Bool) (s : List Char) :
    (spanWhile p s).1 ++ (spanWhile p s).2 = s := by
  induction s with
  | nil => rfl
  | cons c t ih =>
    simp only [spanWhile]
    by_cases h : p c
    · simp [h, ih]
    · simp [h]

theorem spanWhile_all (p : Char → Bool) (s : List Char) :
    (spanWhile p s).1.all p = true := by
  induction s with
  | nil => rfl
  | cons c t ih =>
    simp only [spanWhile]
    by_cases h : p c
    · simp [h, ih]
    · simp [h]

theorem spanWhile_of_all (p : Char → Bool) :
    ∀ (L : List Char) (c : Char) (r : List Char), L.all p = true → p c = false →
      spanWhile p (L ++ c :: r) = (L, c :: r) := by
  intro L
  induction L with
  | nil =>
    intro c r _ hc
    simp [spanWhile, hc]
  | cons a L ih =>
    intro c r hall hc
    simp only [List.all_cons, Bool.and_eq_true] at hall
    simp [spanWhile, hall.1, ih c r hall.2 hc]

theorem spanWhile_length_ge (p : Char → Bool) :
    ∀ (D t : List Char), D.all p = true → D.length ≤ (spanWhile p (D ++ t)).1.length := by
  intro D
  induction D with
  | nil => intro t _; exact Nat.zero_le _
  | cons a D ih =>
    intro t hall
    simp only [List.all_cons, Bool.and_eq_true] at hall
    simpa [spanWhile, hall.1] using ih t hall.2

theorem nonword_not_letter {c : Char} (h : isWordCharB c = false) :
    isLetterChar c = false := by
  simp only [isWordCharB, Bool.or_eq_false_iff] at h
  exact h.1.1

theorem all_take {p : Char → Bool} {l : List Char} (h : l.all p = true) (n : Nat) :
    (l.take n).all p = true := by
  rw [List.all_eq_true] at *
  intro x hx
  exact h x (List.take_subset n l hx)

/-- A successful attempt of the ticket regex at the head of `s` yields a
prefix of `s` that has the letter-ticket shape. -/
theorem ticketMatchAt_sound {s m : List Char} (h : ticketMatchAt s = some m) :
    isTicketShape isLetterChar m = true ∧ s.take m.length = m := by
  unfold ticketMatchAt at h
  split at h
  case h_2 => cases h
  case h_1 ls c rest h1 =>
    by_cases hempty : ls.isEmpty = true
    · rw [if_pos hempty] at h
      cases h
    · rw [if_neg hempty] at h
      by_cases hword : isWordCharB c = true
      · rw [if_pos hword] at h
        cases h
      · rw [if_neg hword] at h
        by_cases hlen : (((spanWhile isDigitChar rest).1).take 5).length < 2
        · rw [if_pos hlen] at h
          cases h
        · rw [if_neg hlen] at h
          have hm : ls ++ c :: ((spanWhile isDigitChar rest).1).take 5 = m :=
            Option.some.inj h
          rw [Bool.not_eq_true] at hempty hword
          have hall_ls : ls.all isLetterChar = true := by
            have h2 := spanWhile_all isLetterChar s
            rw [h1] at h2
            exact h2
          have hall_ds : (((spanWhile isDigitChar rest).1).take 5).all isDigitChar = true :=
            all_take (spanWhile_all isDigitChar rest) 5
          have hd5 : (((spanWhile isDigitChar rest).1).take 5).length ≤ 5 := by
            rw [List.length_take]
            omega
          have hd2 : 2 ≤ (((spanWhile isDigitChar rest).1).take 5).length :=
            Nat.not_lt.mp hlen
          constructor
          · rw [← hm]
            unfold isTicketShape
            rw [List.any_eq_true]
            refine ⟨ls.length, List.mem_range.mpr ?_, ?_⟩
            · simp only [List.length_append, List.length_cons]
              omega
            · rw [List.take_left, List.drop_left]
              simp only [Bool.and_eq_true, Bool.not_eq_true', decide_eq_true_eq]
              exact ⟨⟨⟨⟨⟨hempty, hall_ls⟩, hword⟩, hall_ds⟩, hd2⟩, hd5⟩
          · have hs : ls ++ c :: rest = s := by
              have h2 := spanWhile_append isLetterChar s
              rw [h1] at h2
              exact h2
            have hrest : (((spanWhile isDigitChar rest).1).take 5) ++
                ((((spanWhile isDigitChar rest).1).drop 5) ++ (spanWhile isDigitChar rest).2)
                = rest := by
              calc (((spanWhile isDigitChar rest).1).take 5) ++
                  ((((spanWhile isDigitChar rest).1).drop 5) ++ (spanWhile isDigitChar rest).2)
                  = ((((spanWhile isDigitChar rest).1).take 5) ++
                      (((spanWhile isDigitChar rest).1).drop 5)) ++
                      (spanWhile isDigitChar rest).2 := by
                    rw [List.append_assoc]
                _ = (spanWhile isDigitChar rest).1 ++ (spanWhile isDigitChar rest).2 := by
                    rw [List.take_append_drop]
                _ = rest := spanWhile_append isDigitChar rest
            have hsm : m ++ ((((spanWhile isDigitChar rest).1).drop 5) ++
                (spanWhile isDigitChar rest).2) = s := by
              calc m ++ ((((spanWhile isDigitChar rest).1).drop 5) ++
                  (spanWhile isDigitChar rest).2)
                  = (ls ++ c :: ((spanWhile isDigitChar rest).1).take 5) ++
                    ((((spanWhile isDigitChar rest).1).drop 5) ++
                      (spanWhile isDigitChar rest).2) := by
                    rw [hm]
                _ = ls ++ c :: rest := by
                    conv_rhs => rw [← hrest]
                    simp
                _ = s := hs
            conv_lhs => rw [← hsm]
            rw [List.take_left]

/-- Reduction of the ticket matcher once the letter span is known. -/
theorem ticketMatchAt_eq_of_span {s ls rest : List Char} {c : Char}
    (h1 : spanWhile isLetterChar s = (ls, c :: rest)) :
    ticketMatchAt s =
      (if ls.isEmpty then none
       else if isWordCharB c then none
       else if (((spanWhile isDigitChar rest).1).take 5).length < 2 then none
       else some (ls ++ c :: ((spanWhile isDigitChar rest).1).take 5)) := by
  unfold ticketMatchAt
  rw [h1]

/-- Whenever some prefix of `s` has the letter-ticket shape, the greedy
attempt at the head of `s` succeeds. -/
theorem ticketMatchAt_complete {s : List Char} {k : Nat}
    (h : isTicketShape isLetterChar (s.take k) = true) :
    (ticketMatchAt s).isSome = true := by
  unfold isTicketShape at h
  rw [List.any_eq_true] at h
  obtain ⟨a, _, hbody⟩ := h
  rcases hdrop : (s.take k).drop a with _ | ⟨c, ds⟩
  · rw [hdrop] at hbody
    simp at hbody
  · rw [hdrop] at hbody
    simp only [Bool.and_eq_true, Bool.not_eq_true', decide_eq_true_eq] at hbody
    obtain ⟨⟨⟨⟨⟨hL, hall⟩, hword⟩, hdig⟩, h2⟩, h5⟩ := hbody
    have hLd : (s.take k).take a ++ c :: ds = s.take k := by
      rw [← hdrop, List.take_append_drop]
    have hstruct : ((s.take k).take a) ++ c :: (ds ++ s.drop k) = s := by
      calc ((s.take k).take a) ++ c :: (ds ++ s.drop k)
          = (((s.take k).take a) ++ c :: ds) ++ s.drop k := by simp
        _ = s.take k ++ s.drop k := by rw [hLd]
        _ = s := List.take_append_drop k s
    have hspan : spanWhile isLetterChar s = ((s.take k).take a, c :: (ds ++ s.drop k)) := by
      conv_lhs => rw [← hstruct]
      exact spanWhile_of_all _ _ _ _ hall (nonword_not_letter hword)
    have hd2 : 2 ≤ (((spanWhile isDigitChar (ds ++ s.drop k)).1).take 5).length := by
      have hge := spanWhile_length_ge isDigitChar ds (s.drop k) hdig
      rw [List.length_take]
      omega
    have hnotlt : ¬ ((((spanWhile isDigitChar (ds ++ s.drop k)).1).take 5).length < 2) :=
      Nat.not_lt.mpr hd2
    rw [ticketMatchAt_eq_of_span hspan, if_neg (by rw [hL]; exact Bool.false_ne_true),
      if_neg (by rw [hword]; exact Bool.false_ne_true), if_neg hnotlt]
    rfl

/-- A successful head attempt witnesses a ticket match at position 0. -/
theorem hasTicketAt_zero_of_some {s m : List Char} (hm : ticketMatchAt s = some m) :
    hasTicketAt isLetterChar s 0 = true := by
  obtain ⟨hshape, htake⟩ := ticketMatchAt_sound hm
  unfold hasTicketAt
  rw [List.any_eq_true]
  refine ⟨m.length, List.mem_range.mpr ?_, ?_⟩
  · have := congrArg List.length htake
    simp only [List.length_take] at this
    rw [List.drop_zero]
    omega
  · simpa [htake] using hshape

theorem findTicketID_of_no_match :
    ∀ (s : List Char), (∀ i, hasTicketAt isLetterChar s i = false) → findTicketID s = [] := by
  intro s
  induction s with
  | nil => intro _; rfl
  | cons c t ih =>
    intro hall
    have hnone : ticketMatchAt (c :: t) = none := by
      cases hmt : ticketMatchAt (c :: t) with
      | none => rfl
      | some m =>
        have := hasTicketAt_zero_of_some hmt
        rw [hall 0] at this
        cases this
    rw [findTicketID, hnone]
    exact ih fun i => hall (i + 1)

theorem findTicketID_of_match :
    ∀ (i : Nat) (s : List Char), (∀ j, j < i → hasTicketAt isLetterChar s j = false) →
      hasTicketAt isLetterChar s i = true →
      isTicketShape isLetterChar (findTicketID s) = true ∧
        (s.drop i).take (findTicketID s).length = findTicketID s := by
  intro i
  induction i with
  | zero =>
    intro s _ hi
    unfold hasTicketAt at hi
    rw [List.any_eq_true] at hi
    obtain ⟨k, _, hk⟩ := hi
    simp only [List.drop_zero] at hk
    have hsome := ticketMatchAt_complete hk
    cases s with
    | nil => exact absurd hk (by simp [List.take_nil]; decide)
    | cons c t =>
      obtain ⟨m, hm⟩ := Option.isSome_iff_exists.mp hsome
      obtain ⟨h1, h2⟩ := ticketMatchAt_sound hm
      have hfind : findTicketID (c :: t) = m := by
        rw [findTicketID, hm]
      rw [hfind]
      simpa using ⟨h1, h2⟩
  | succ i ih =>
    intro s hlt hi
    cases s with
    | nil =>
      refine absurd hi ?_
      simp [hasTicketAt, List.drop_nil]
      decide
    | cons c t =>
      have h0 : hasTicketAt isLetterChar (c :: t) 0 = false := hlt 0 (Nat.succ_pos i)
      have hnone : ticketMatchAt (c :: t) = none := by
        cases hmt : ticketMatchAt (c :: t) with
        | none => rfl
        | some m =>
          have := hasTicketAt_zero_of_some hmt
          rw [h0] at this
          cases this
      have hfind : findTicketID (c :: t) = findTicketID t := by
        rw [findTicketID, hnone]
      rw [hfind]
      exact ih t (fun j hj => hlt (j + 1) (Nat.succ_lt_succ hj)) hi

/-- Reduction of the type matcher once the first letter span is known. -/
theorem typeMatchAt_eq_of_span {s ls1 r1 : List Char} {c1 : Char}
    (h1 : spanWhile isLetterChar s = (ls1, c1 :: r1)) :
    typeMatchAt s =
      (if ls1.isEmpty then none
       else if isWordCharB c1 then none
       else
         match ticketMatchAt r1 with
         | some t => some (ls1 ++ c1 :: t)
         | none => none) := by
  unfold typeMatchAt
  rw [h1]

/-- A successful attempt of the anchored type regex yields a prefix of `s`
that has the letter-type shape. -/
theorem typeMatchAt_sound {s m : List Char} (h : typeMatchAt s = some m) :
    isTypeShape isLetterChar m = true ∧ s.take m.length = m := by
  unfold typeMatchAt at h
  split at h
  case h_2 => cases h
  case h_1 ls1 c1 r1 h1 =>
    by_cases hempty : ls1.isEmpty = true
    · rw [if_pos hempty] at h
      cases h
    · rw [if_neg hempty] at h
      by_cases hword : isWordCharB c1 = true
      · rw [if_pos hword] at h
        cases h
      · rw [if_neg hword] at h
        split at h
        case _ t hmt =>
          have hm : ls1 ++ c1 :: t = m := Option.some.inj h
          rw [Bool.not_eq_true] at hempty hword
          obtain ⟨htshape, httake⟩ := ticketMatchAt_sound hmt
          have hall1 : ls1.all isLetterChar = true := by
            have h2 := spanWhile_all isLetterChar s
            rw [h1] at h2
            exact h2
          constructor
          · rw [← hm]
            unfold isTypeShape
            rw [List.any_eq_true]
            refine ⟨ls1.length, List.mem_range.mpr ?_, ?_⟩
            · simp only [List.length_append, List.length_cons]
              omega
            · rw [List.drop_left, List.take_left]
              simp only [Bool.and_eq_true, Bool.not_eq_true']
              exact ⟨⟨⟨hempty, hall1⟩, hword⟩, htshape⟩
          · have hs : ls1 ++ c1 :: r1 = s := by
              have h2 := spanWhile_append isLetterChar s
              rw [h1] at h2
              exact h2
            have hsm : m ++ r1.drop t.length = s := by
              calc m ++ r1.drop t.length
                  = (ls1 ++ c1 :: t) ++ r1.drop t.length := by rw [hm]
                _ = ls1 ++ c1 :: (t ++ r1.drop t.length) := by simp
                _ = ls1 ++ c1 :: (r1.take t.length ++ r1.drop t.length) := by rw [httake]
                _ = ls1 ++ c1 :: r1 := by rw [List.take_append_drop]
                _ = s := hs
            conv_lhs => rw [← hsm]
            rw [List.take_left]
        case _ hmt => cases h

/-- Whenever some prefix of `s` has the letter-type shape, the anchored
type attempt on `s` succeeds. -/
theorem typeMatchAt_complete {s : List Char} {k : Nat}
    (h : isTypeShape isLetterChar (s.take k) = true) :
    (typeMatchAt s).isSome = true := by
  unfold isTypeShape at h
  rw [List.any_eq_true] at h
  obtain ⟨a, _, hbody⟩ := h
  rcases hdrop : (s.take k).drop a with _ | ⟨c1, r1⟩
  · rw [hdrop] at hbody
    simp at hbody
  · rw [hdrop] at hbody
    simp only [Bool.and_eq_true, Bool.not_eq_true'] at hbody
    obtain ⟨⟨⟨hL1, hall1⟩, hword1⟩, htick⟩ := hbody
    have hLd : (s.take k).take a ++ c1 :: r1 = s.take k := by
      rw [← hdrop, List.take_append_drop]
    have hstruct : ((s.take k).take a) ++ c1 :: (r1 ++ s.drop k) = s := by
      calc ((s.take k).take a) ++ c1 :: (r1 ++ s.drop k)
          = (((s.take k).take a) ++ c1 :: r1) ++ s.drop k := by simp
        _ = s.take k ++ s.drop k := by rw [hLd]
        _ = s := List.take_append_drop k s
    have hspan : spanWhile isLetterChar s = ((s.take k).take a, c1 :: (r1 ++ s.drop k)) := by
      conv_lhs => rw [← hstruct]
      exact spanWhile_of_all _ _ _ _ hall1 (nonword_not_letter hword1)
    have htick2 : isTicketShape isLetterChar ((r1 ++ s.drop k).take r1.length) = true := by
      rw [List.take_left]
      exact htick
    have hsome := ticketMatchAt_complete htick2
    obtain ⟨t, ht⟩ := Option.isSome_iff_exists.mp hsome
    rw [typeMatchAt_eq_of_span hspan, if_neg (by rw [hL1]; exact Bool.false_ne_true),
      if_neg (by rw [hword1]; exact Bool.false_ne_true), ht]
    rfl

theorem getMRType_of_no_match {s : List Char}
    (h : ∀ k, isTypeShape isLetterChar (s.take k) = false) :
    getMRType s = [] := by
  have hnone : typeMatchAt s = none := by
    cases hmt : typeMatchAt s with
    | none => rfl
    | some m =>
      obtain ⟨hshape, htake⟩ := typeMatchAt_sound hmt
      have h2 := h m.length
      rw [htake, hshape] at h2
      cases h2
  unfold getMRType
  rw [hnone]
  rfl

theorem getMRType_of_match {s : List Char} {k : Nat}
    (h : isTypeShape isLetterChar (s.take k) = true) :
    ∃ m, isTypeShape isLetterChar m = true ∧ s.take m.length = m ∧
      getMRType s = firstSegment (formatTicketID m) := by
  have hsome := typeMatchAt_complete h
  obtain ⟨m, hm⟩ := Option.isSome_iff_exists.mp hsome
  obtain ⟨h1, h2⟩ := typeMatchAt_sound hm
  refine ⟨m, h1, h2, ?_⟩
  unfold getMRType
  rw [hm]

/-! Lemmas about the character-level normalisation. -/

theorem char_toNat_ofNat_valid {n : Nat} (h : n.isValidChar) : (Char.ofNat n).toNat = n := by
  rw [Char.ofNat, dif_pos h]
  rfl

theorem toUpper_eq_of_range {c : Char} (h : 97 ≤ c.toNat ∧ c.toNat ≤ 122) :
    Char.toUpper c = Char.ofNat (c.toNat - 32) := by
  simp only [Char.toUpper]
  rw [if_pos h]

theorem toUpper_eq_of_not_range {c : Char} (h : ¬ (97 ≤ c.toNat ∧ c.toNat ≤ 122)) :
    Char.toUpper c = c := by
  simp only [Char.toUpper]
  rw [if_neg h]

theorem toUpper_idem (c : Char) : Char.toUpper (Char.toUpper c) = Char.toUpper c := by
  by_cases h : 97 ≤ c.toNat ∧ c.toNat ≤ 122
  · rw [toUpper_eq_of_range h]
    apply toUpper_eq_of_not_range
    rw [char_toNat_ofNat_valid (Or.inl (by omega))]
    omega
  · rw [toUpper_eq_of_not_range h, toUpper_eq_of_not_range h]

theorem sepToDash_ne (c : Char) :
    sepToDash c ≠ '/' ∧ sepToDash c ≠ ' ' ∧ sepToDash c ≠ ':' := by
  unfold sepToDash
  by_cases h : (c == '/' || c == ' ' || c == ':') = true
  · rw [if_pos h]
    exact ⟨by decide, by decide, by decide⟩
  · rw [if_neg h]
    simp only [Bool.or_eq_true, beq_iff_eq, not_or] at h
    exact ⟨h.1.1, h.1.2, h.2⟩

theorem sepToDash_eq_self_of_ne {d : Char}
    (h : d ≠ '/' ∧ d ≠ ' ' ∧ d ≠ ':') : sepToDash d = d := by
  unfold sepToDash
  rw [if_neg]
  simp only [Bool.or_eq_true, beq_iff_eq, not_or]
  exact ⟨⟨h.1, h.2.1⟩, h.2.2⟩

theorem toUpper_ne_sep {d : Char} (h : d ≠ '/' ∧ d ≠ ' ' ∧ d ≠ ':') :
    Char.toUpper d ≠ '/' ∧ Char.toUpper d ≠ ' ' ∧ Char.toUpper d ≠ ':' := by
  by_cases hr : 97 ≤ d.toNat ∧ d.toNat ≤ 122
  · rw [toUpper_eq_of_range hr]
    have hv := char_toNat_ofNat_valid (n := d.toNat - 32) (Or.inl (by omega))
    refine ⟨fun heq => ?_, fun heq => ?_, fun heq => ?_⟩
    · have hn := congrArg Char.toNat heq
      rw [hv] at hn
      have h47 : ('/').toNat = 47 := rfl
      omega
    · have hn := congrArg Char.toNat heq
      rw [hv] at hn
      have h32 : (' ').toNat = 32 := rfl
      omega
    · have hn := congrArg Char.toNat heq
      rw [hv] at hn
      have h58 : (':').toNat = 58 := rfl
      omega
  · rw [toUpper_eq_of_not_range hr]
    exact h

/-! Lemmas about the pagination loops. -/

theorem range_one_eq : List.range 1 = [0] := rfl

theorem range_succ_map {β : Type} (g : Nat → β) (n : Nat) :
    (List.range (n + 1)).map g = g 0 :: (List.range n).map (fun j => g (j + 1)) := by
  rw [List.range_succ_eq_map]
  simp [List.map_map, Function.comp]

/-- Running the structured loop when pages `page, ..., page + k - 1` are
full and page `page + k` is short: every fetched page's items are emitted
in order, the loop stops at the first short page, and no error is
reported. -/
theorem mrLoop_ok_run {ι ρ E : Type} (fetch : Nat → Except E (List ι)) (emit : ι → ρ)
    (pp : Nat) (l : Nat → List ι) :
    ∀ (k page fuel : Nat),
      (∀ j, j < k → fetch (page + j) = .ok (l (page + j)) ∧ pp ≤ (l (page + j)).length) →
      fetch (page + k) = .ok (l (page + k)) → (l (page + k)).length < pp → k < fuel →
      mrLoop fetch emit pp fuel page =
        some ((((List.range (k + 1)).map fun j => (l (page + j)).map emit).flatten),
          (List.range (k + 1)).map (fun j => page + j), ([] : List E)) := by
  intro k
  induction k with
  | zero =>
    intro page fuel _ hlast hshort hfuel
    obtain ⟨fuel, rfl⟩ : ∃ f, fuel = f + 1 := ⟨fuel - 1, by omega⟩
    rw [Nat.add_zero] at hlast hshort
    unfold mrLoop
    simp only [hlast, if_pos hshort]
    simp [range_one_eq]
  | succ k ih =>
    intro page fuel hfull hlast hshort hfuel
    obtain ⟨fuel, rfl⟩ : ∃ f, fuel = f + 1 := ⟨fuel - 1, by omega⟩
    have h0 := hfull 0 (Nat.succ_pos k)
    rw [Nat.add_zero] at h0
    have hfull2 : ∀ j, j < k → fetch (page + 1 + j) = .ok (l (page + 1 + j)) ∧
        pp ≤ (l (page + 1 + j)).length := by
      intro j hj
      have h2 := hfull (j + 1) (Nat.succ_lt_succ hj)
      rwa [show page + (j + 1) = page + 1 + j from by omega] at h2
    have hlast2 : fetch (page + 1 + k) = .ok (l (page + 1 + k)) := by
      rwa [show page + (k + 1) = page + 1 + k from by omega] at hlast
    have hshort2 : (l (page + 1 + k)).length < pp := by
      rwa [show page + (k + 1) = page + 1 + k from by omega] at hshort
    have hrec := ih (page + 1) fuel hfull2 hlast2 hshort2 (by omega)
    unfold mrLoop
    simp only [h0.1, if_neg (Nat.not_lt.mpr h0.2), hrec]
    conv_rhs => rw [range_succ_map (fun j => (l (page + j)).map emit) (k + 1),
      range_succ_map (fun j => page + j) (k + 1)]
    simp only [List.flatten_cons, Nat.add_zero]
    have e1 : ((List.range (k + 1)).map fun j => (l (page + (j + 1))).map emit)
        = (List.range (k + 1)).map fun j => (l (page + 1 + j)).map emit :=
      List.map_congr_left fun j _ => by
        rw [show page + (j + 1) = page + 1 + j from by omega]
    have e2 : ((List.range (k + 1)).map fun j => page + (j + 1))
        = (List.range (k + 1)).map fun j => page + 1 + j :=
      List.map_congr_left fun j _ => by omega
    simp only [e1, e2]

/-- Running the structured loop when pages `page, ..., page + k - 1` are
full and the fetch of page `page + k` fails: the error is reported, the
loop stops, the earlier pages' items remain emitted. -/
theorem mrLoop_err_run {ι ρ E : Type} (fetch : Nat → Except E (List ι)) (emit : ι → ρ)
    (pp : Nat) (l : Nat → List ι) (e : E) :
    ∀ (k page fuel : Nat),
      (∀ j, j < k → fetch (page + j) = .ok (l (page + j)) ∧ pp ≤ (l (page + j)).length) →
      fetch (page + k) = .error e → k < fuel →
      mrLoop fetch emit pp fuel page =
        some ((((List.range k).map fun j => (l (page + j)).map emit).flatten),
          (List.range (k + 1)).map (fun j => page + j), [e]) := by
  intro k
  induction k with
  | zero =>
    intro page fuel _ hlast hfuel
    obtain ⟨fuel, rfl⟩ : ∃ f, fuel = f + 1 := ⟨fuel - 1, by omega⟩
    rw [Nat.add_zero] at hlast
    unfold mrLoop
    simp only [hlast]
    simp [range_one_eq]
  | succ k ih =>
    intro page fuel hfull hlast hfuel
    obtain ⟨fuel, rfl⟩ : ∃ f, fuel = f + 1 := ⟨fuel - 1, by omega⟩
    have h0 := hfull 0 (Nat.succ_pos k)
    rw [Nat.add_zero] at h0
    have hfull2 : ∀ j, j < k → fetch (page + 1 + j) = .ok (l (page + 1 + j)) ∧
        pp ≤ (l (page + 1 + j)).length := by
      intro j hj
      have h2 := hfull (j + 1) (Nat.succ_lt_succ hj)
      rwa [show page + (j + 1) = page + 1 + j from by omega] at h2
    have hlast2 : fetch (page + 1 + k) = .error e := by
      rwa [show page + (k + 1) = page + 1 + k from by omega] at hlast
    have hrec := ih (page + 1) fuel hfull2 hlast2 (by omega)
    unfold mrLoop
    simp only [h0.1, if_neg (Nat.not_lt.mpr h0.2), hrec]
    conv_rhs => rw [range_succ_map (fun j => (l (page + j)).map emit) k,
      range_succ_map (fun j => page + j) (k + 1)]
    simp only [List.flatten_cons, Nat.add_zero]
    have e1 : ((List.range k).map fun j => (l (page + (j + 1))).map emit)
        = (List.range k).map fun j => (l (page + 1 + j)).map emit :=
      List.map_congr_left fun j _ => by
        rw [show page + (j + 1) = page + 1 + j from by omega]
    have e2 : ((List.range (k + 1)).map fun j => page + (j + 1))
        = (List.range (k + 1)).map fun j => page + 1 + j :=
      List.map_congr_left fun j _ => by omega
    simp only [e1, e2]

/-- With a positive page size the commit loop and the merge-request loop
coincide: a failed fetch delivers no items, so the short-page test fires
on the very page whose fetch failed. -/
theorem commitLoop_eq_mrLoop {ι ρ E : Type} (fetch : Nat → Except E (List ι)) (emit : ι → ρ)
    (pp : Nat) (hpp : 0 < pp) :
    ∀ (fuel page : Nat), commitLoop fetch emit pp fuel page = mrLoop fetch emit pp fuel page := by
  intro fuel
  induction fuel with
  | zero => intro page; rfl
  | succ fuel ih =>
    intro page
    unfold commitLoop mrLoop
    cases hf : fetch page with
    | error e =>
      simp only [hf]
      rw [if_pos (by simpa using hpp)]
      simp
    | ok cs =>
      simp only [hf]
      by_cases hlen : cs.length < pp
      · rw [if_pos hlen, if_pos hlen]
      · rw [if_neg hlen, if_neg hlen, ih (page + 1)]
        cases mrLoop fetch emit pp fuel (page + 1) with
        | none => rfl
        | some t => simp

/-- The page numbers any run of the structured loop fetches are
consecutive, starting at the initial cursor. -/
theorem mrLoop_pages_consecutive {ι ρ E : Type} (fetch : Nat → Except E (List ι))
    (emit : ι → ρ) (pp : Nat) :
    ∀ (fuel page : Nat) (recs : List ρ) (pages : List Nat) (errs : List E),
      mrLoop fetch emit pp fuel page = some (recs, pages, errs) →
      pages = (List.range pages.length).map (fun j => page + j) := by
  intro fuel
  induction fuel with
  | zero => intro page recs pages errs h; cases h
  | succ fuel ih =>
    intro page recs pages errs h
    unfold mrLoop at h
    cases hf : fetch page with
    | error e =>
      rw [hf] at h
      simp only [Option.some.injEq, Prod.mk.injEq] at h
      rw [← h.2.1]
      simp [range_one_eq]
    | ok mrs =>
      rw [hf] at h
      simp only at h
      by_cases hlen : mrs.length < pp
      · rw [if_pos hlen] at h
        simp only [Option.some.injEq, Prod.mk.injEq] at h
        rw [← h.2.1]
        simp [range_one_eq]
      · rw [if_neg hlen] at h
        cases hrec : mrLoop fetch emit pp fuel (page + 1) with
        | none =>
          rw [hrec] at h
          cases h
        | some t =>
          obtain ⟨recs2, pages2, errs2⟩ := t
          rw [hrec] at h
          simp only [Option.some.injEq, Prod.mk.injEq] at h
          have h2 := ih (page + 1) recs2 pages2 errs2 hrec
          rw [← h.2.1, h2]
          rw [List.length_cons, List.length_map, List.length_range,
            range_succ_map (fun j => page + j) pages2.length]
          simp only [Nat.add_zero, List.cons.injEq]
          refine ⟨trivial, ?_⟩
          conv_lhs => rw [h2]
          rw [List.length_map, List.length_range]
          exact List.map_congr_left fun j _ => by omega

theorem pagedFetch_zero {ι : Type} (items : List ι) (P : Nat) :
    pagedFetch items P 0 = items.take P := by
  unfold pagedFetch
  rw [Nat.zero_mul, List.drop_zero]

theorem pagedFetch_succ {ι : Type} (items : List ι) (P p : Nat) :
    pagedFetch items P (p + 1) = pagedFetch (items.drop P) P p := by
  unfold pagedFetch
  rw [List.drop_drop, show P + p * P = (p + 1) * P from by ring]

/-- Splitting a list into size-`P` pages and flattening pages `0` through
`length / P` gives back the list. -/
theorem pagedFetch_flatten {ι : Type} (P : Nat) (hP : 0 < P) :
    ∀ (n : Nat) (items : List ι), items.length ≤ n →
      ((List.range (items.length / P + 1)).map fun p => pagedFetch items P p).flatten
        = items := by
  intro n
  induction n with
  | zero =>
    intro items hlen
    have hnil : items = [] := List.eq_nil_of_length_eq_zero (by omega)
    subst hnil
    simp [range_one_eq, pagedFetch]
  | succ n ih =>
    intro items hlen
    by_cases hsmall : items.length < P
    · have hdiv : items.length / P = 0 := Nat.div_eq_of_lt hsmall
      have hall : pagedFetch items P 0 = items := by
        rw [pagedFetch_zero]
        exact List.take_of_length_le (Nat.le_of_lt hsmall)
      rw [hdiv]
      simp [range_one_eq, hall]
    · have hge : P ≤ items.length := Nat.not_lt.mp hsmall
      have hdiv : items.length / P = (items.length - P) / P + 1 := Nat.div_eq_sub_div hP hge
      have hrest_len : (items.drop P).length = items.length - P := by simp
      have hrec := ih (items.drop P) (by simp; omega)
      rw [hdiv, range_succ_map (fun p => pagedFetch items P p) ((items.length - P) / P + 1)]
      simp only [List.flatten_cons]
      have htail : ((List.range ((items.length - P) / P + 1)).map
            fun p => pagedFetch items P (p + 1))
          = (List.range ((items.drop P).length / P + 1)).map
            fun p => pagedFetch (items.drop P) P p := by
        rw [hrest_len]
        exact List.map_congr_left fun p _ => pagedFetch_succ items P p
      calc pagedFetch items P 0 ++
            ((List.range ((items.length - P) / P + 1)).map
              fun p => pagedFetch items P (p + 1)).flatten
          = items.take P ++ items.drop P := by rw [pagedFetch_zero, htail, hrec]
        _ = items := List.take_append_drop P items

/-- Page `p` of the paged source is full for `p` below `length / P` and
short at `length / P`. -/
theorem pagedFetch_length {ι : Type} (items : List ι) (P : Nat) (hP : 0 < P) :
    (∀ p, p < items.length / P → (pagedFetch items P p).length = P) ∧
      (pagedFetch items P (items.length / P)).length < P := by
  constructor
  · intro p hp
    unfold pagedFetch
    rw [List.length_take, List.length_drop]
    have h1 : (p + 1) * P ≤ (items.length / P) * P :=
      Nat.mul_le_mul_right P hp
    have h2 : (items.length / P) * P ≤ items.length := Nat.div_mul_le_self _ _
    have h3 : (p + 1) * P = p * P + P := by ring
    omega
  · unfold pagedFetch
    rw [List.length_take, List.length_drop]
    have h2 : P * (items.length / P) + items.length % P = items.length :=
      Nat.div_add_mod _ _
    have h3 : items.length % P < P := Nat.mod_lt _ hP
    have h4 : items.length / P * P = P * (items.length / P) := by ring
    omega

/-- The claimed fetch-count arithmetic: `length / P + 1` equals the
ceiling `⌈length / P⌉` when `P` does not divide the length, and the
ceiling plus one extra fetch when it does. -/
theorem paged_fetch_count_arith (N P : Nat) (hP : 0 < P) :
    (¬ P ∣ N → N / P + 1 = (N + P - 1) / P) ∧
      (P ∣ N → N / P + 1 = (N + P - 1) / P + 1) := by
  have hmod := Nat.div_add_mod N P
  have hmodlt : N % P < P := Nat.mod_lt _ hP
  constructor
  · intro hnd
    have hr : N % P ≠ 0 := fun h => hnd (Nat.dvd_iff_mod_eq_zero.mpr h)
    have hexp : (N / P + 1) * P = N / P * P + P := by ring
    have hcomm : P * (N / P) = N / P * P := by ring
    have hsplit : N + P - 1 = (N % P - 1) + (N / P + 1) * P := by omega
    rw [hsplit, Nat.add_mul_div_right _ _ hP,
      Nat.div_eq_of_lt (show N % P - 1 < P by omega)]
    omega
  · intro hd
    have hr : N % P = 0 := Nat.dvd_iff_mod_eq_zero.mp hd
    have hcomm : P * (N / P) = N / P * P := by ring
    have hsplit : N + P - 1 = (P - 1) + (N / P) * P := by omega
    rw [hsplit, Nat.add_mul_div_right _ _ hP,
      Nat.div_eq_of_lt (show P - 1 < P by omega)]
    omega

/-- On error-free page sources delivering at most the requested 100 items
per page, the goto loop of the early Gather and the structured loop of
fetchMergeRequests coincide step by step: continuing on `== 100` and
continuing on `¬ (< 100)` agree when page sizes never exceed 100. -/
theorem gatherGotoLoop_eq_mrLoop {ι ρ E : Type} (fetch : Nat → Except E (List ι))
    (emit : ι → ρ) (hok : ∀ p, ∃ lp, fetch p = Except.ok lp ∧ lp.length ≤ 100) :
    ∀ (fuel cp : Nat), gatherGotoLoop fetch emit fuel cp = mrLoop fetch emit 100 fuel cp := by
  intro fuel
  induction fuel with
  | zero => intro cp; rfl
  | succ fuel ih =>
    intro cp
    obtain ⟨lp, hfp, hle⟩ := hok cp
    unfold gatherGotoLoop mrLoop
    simp only [hfp]
    by_cases h100 : lp.length = 100
    · rw [if_pos (by simp [h100]), if_neg (by omega), ih (cp + 1)]
    · rw [if_neg (by simp [h100]), if_pos (by omega)]

/-!
The claims.
-/

/-- C6, amended: `findTicketID` returns the first substring of its title
argument matching "ASCII letters, then exactly one non-word separator,
then 2-5 digits" — the leading run in the code's regex is `[a-zA-Z]+`,
letters only, not all word characters — and returns the empty string
(never an error, by its type) when no such substring exists; in
particular it maps "Fix ABC-1234: bug" to "ABC-1234" and "no ticket here"
to "".  First conjunct: no match at any position means the empty result;
second: at the least position `i` admitting a match, the result is a
pattern-shaped prefix of the suffix starting at `i`. -/
theorem C6_findTicketID_characterization (s : List Char) :
    ((∀ i, hasTicketAt isLetterChar s i = false) → findTicketID s = []) ∧
    (∀ i, (∀ j, j < i → hasTicketAt isLetterChar s j = false) →
        hasTicketAt isLetterChar s i = true →
        isTicketShape isLetterChar (findTicketID s) = true ∧
          (s.drop i).take (findTicketID s).length = findTicketID s) ∧
    findTicketID (("Fix ABC-1234: bug").data) = ("ABC-1234").data ∧
    findTicketID (("no ticket here").data) = [] :=
  ⟨findTicketID_of_no_match s,
   fun i h1 h2 => findTicketID_of_match i s h1 h2,
   by decide, by decide⟩

/-- Witness for C6 on the spec's own example "Fix ABC-1234: bug", whose
least matching position is 4. -/
theorem C6_witness :
    (∀ j, j < 4 → hasTicketAt isLetterChar (("Fix ABC-1234: bug").data) j = false) ∧
    hasTicketAt isLetterChar (("Fix ABC-1234: bug").data) 4 = true ∧
    (isTicketShape isLetterChar (findTicketID (("Fix ABC-1234: bug").data)) = true ∧
      ((("Fix ABC-1234: bug").data).drop 4).take
          (findTicketID (("Fix ABC-1234: bug").data)).length
        = findTicketID (("Fix ABC-1234: bug").data)) :=
  ⟨by decide, by decide,
   (C6_findTicketID_characterization (("Fix ABC-1234: bug").data)).2.1 4
     (by decide) (by decide)⟩

/-- C6 counterexample: "12-34" contains a substring — the whole string —
matching the claim's "word-characters, then exactly one non-word
separator, then 2-5 digits" (digits are word characters), yet
findTicketID returns the empty string, which the claim reserves for
titles holding no such substring. -/
theorem C6_counterexample :
    findTicketID (("12-34").data) = [] ∧
    isTicketShape isWordCharB (("12-34").data) = true ∧
    hasTicketAt isWordCharB (("12-34").data) 0 = true :=
  ⟨by decide, by decide, by decide⟩

/-- C7, amended: `getMRType` finds the first substring matching "ASCII
letters, separator, ASCII letters, separator, 2-5 digits" anchored at the
start of the title — again letters, not all word characters — normalises
it (separators replaced by dashes, then uppercased), splits on dashes and
returns the first segment; with no match it returns the empty string and
never fails; it maps "feature/ABC-123: add login" to "FEATURE" and
"ABC-123 only" to "". -/
theorem C7_getMRType_characterization (s : List Char) :
    ((∀ k, isTypeShape isLetterChar (s.take k) = false) → getMRType s = []) ∧
    (∀ k, isTypeShape isLetterChar (s.take k) = true →
       ∃ m, isTypeShape isLetterChar m = true ∧ s.take m.length = m ∧
         getMRType s = firstSegment (formatTicketID m)) ∧
    getMRType (("feature/ABC-123: add login").data) = ("FEATURE").data ∧
    getMRType (("ABC-123 only").data) = [] :=
  ⟨fun h => getMRType_of_no_match h,
   fun k hk => getMRType_of_match hk,
   by decide, by decide⟩

/-- Witness for C7 on the spec's own example, whose anchored match is the
15-character prefix "feature/ABC-123". -/
theorem C7_witness :
    isTypeShape isLetterChar ((("feature/ABC-123: add login").data).take 15) = true ∧
    (∃ m, isTypeShape isLetterChar m = true ∧
      (("feature/ABC-123: add login").data).take m.length = m ∧
      getMRType (("feature/ABC-123: add login").data) = firstSegment (formatTicketID m)) :=
  ⟨by decide, (C7_getMRType_characterization (("feature/ABC-123: add login").data)).2.1
    15 (by decide)⟩

/-- C7 counterexample: "12-34-56" starts with a substring — the whole
string — matching the claim's "word-chars, separator, word-chars,
separator, 2-5 digits" pattern, yet getMRType returns the empty string
where the claim would require the first normalised segment "12". -/
theorem C7_counterexample :
    getMRType (("12-34-56").data) = [] ∧
    isTypeShape isWordCharB ((("12-34-56").data).take 8) = true :=
  ⟨by decide, by decide⟩

/-- C8: `formatTicketID` — replace the separators '/', ' ' and ':' by '-'
and uppercase — is idempotent on every string, hence in particular on
already-normalised ones; and it normalises as the spec's example says. -/
theorem C8_formatTicketID_idempotent (s : List Char) :
    formatTicketID (formatTicketID s) = formatTicketID s ∧
    formatTicketID (("abc/123").data) = ("ABC-123").data := by
  constructor
  · unfold formatTicketID
    rw [List.map_map, List.map_map, List.map_map, List.map_map]
    apply List.map_congr_left
    intro a _
    simp only [Function.comp]
    have h1 : sepToDash (Char.toUpper (sepToDash a)) = Char.toUpper (sepToDash a) :=
      sepToDash_eq_self_of_ne (toUpper_ne_sep (sepToDash_ne a))
    rw [h1, toUpper_idem]
  · decide

theorem map_zero_add_range {β : Type} (g : Nat → β) (n : Nat) :
    ((List.range n).map fun j => g (0 + j)) = (List.range n).map g :=
  List.map_congr_left fun j _ => by rw [Nat.zero_add]

theorem range_map_zero_add (n : Nat) :
    ((List.range n).map fun j => 0 + j) = List.range n := by
  calc ((List.range n).map fun j => 0 + j)
      = (List.range n).map id := List.map_congr_left fun j _ => Nat.zero_add j
    _ = List.range n := List.map_id _

/-- `mrLoop_ok_run` specialised to the initial cursor 0. -/
theorem mrLoop_ok_run0 {ι ρ E : Type} (fetch : Nat → Except E (List ι)) (emit : ι → ρ)
    (pp : Nat) (l : Nat → List ι) (k fuel : Nat)
    (hfull : ∀ j, j < k → fetch j = Except.ok (l j) ∧ pp ≤ (l j).length)
    (hlast : fetch k = Except.ok (l k)) (hshort : (l k).length < pp) (hfuel : k < fuel) :
    mrLoop fetch emit pp fuel 0 =
      some ((((List.range (k + 1)).map fun j => (l j).map emit).flatten),
        List.range (k + 1), ([] : List E)) := by
  have h := mrLoop_ok_run fetch emit pp l k 0 fuel
    (fun j hj => by rw [Nat.zero_add]; exact hfull j hj)
    (by rw [Nat.zero_add]; exact hlast) (by rw [Nat.zero_add]; exact hshort) hfuel
  rw [h, range_map_zero_add]
  rw [show ((List.range (k + 1)).map fun j => (l (0 + j)).map emit)
    = (List.range (k + 1)).map fun j => (l j).map emit from
    List.map_congr_left fun j _ => by rw [Nat.zero_add]]

/-- `mrLoop_err_run` specialised to the initial cursor 0. -/
theorem mrLoop_err_run0 {ι ρ E : Type} (fetch : Nat → Except E (List ι)) (emit : ι → ρ)
    (pp : Nat) (l : Nat → List ι) (e : E) (k fuel : Nat)
    (hfull : ∀ j, j < k → fetch j = Except.ok (l j) ∧ pp ≤ (l j).length)
    (herr : fetch k = Except.error e) (hfuel : k < fuel) :
    mrLoop fetch emit pp fuel 0 =
      some ((((List.range k).map fun j => (l j).map emit).flatten),
        List.range (k + 1), [e]) := by
  have h := mrLoop_err_run fetch emit pp l e k 0 fuel
    (fun j hj => by rw [Nat.zero_add]; exact hfull j hj)
    (by rw [Nat.zero_add]; exact herr) hfuel
  rw [h, range_map_zero_add]
  rw [show ((List.range k).map fun j => (l (0 + j)).map emit)
    = (List.range k).map fun j => (l j).map emit from
    List.map_congr_left fun j _ => by rw [Nat.zero_add]]

/-- C1: with requested page size 100 and an error-free page source whose
pages before `k` are full (no fewer than 100 items) while page `k` is
short, the merge-request walker emits one record per item, each exactly
once, in page order then item order — the flatten of the per-page record
lists over pages 0..k — fetches exactly pages 0..k (terminating exactly
at the first short page), and reports no error.  The fetch interface
carries neither a total count nor a has-more flag, so the walker can
consult only the per-page item counts it received. -/
theorem C1_fetchMergeRequests_run {α E : Type}
    (fetch : Nat → Except E (List (MergeRequest α))) (l : Nat → List (MergeRequest α))
    (k fuel : Nat)
    (hfull : ∀ j, j < k → fetch j = Except.ok (l j) ∧ 100 ≤ (l j).length)
    (hlast : fetch k = Except.ok (l k)) (hshort : (l k).length < 100) (hfuel : k < fuel) :
    fetchMergeRequests fetch fuel =
      some ((((List.range (k + 1)).map fun j => (l j).map mkMRRecord).flatten),
        List.range (k + 1), []) := by
  unfold fetchMergeRequests
  exact mrLoop_ok_run0 fetch mkMRRecord 100 l k fuel hfull hlast hshort hfuel

/-- Concrete two-page source for the C1 witness: page 0 full, page 1
short. -/
def c1pages : Nat → List (MergeRequest Nat)
  | 0 => List.replicate 100 ⟨[], 0⟩
  | 1 => [⟨[], 1⟩]
  | _ => []

def c1fetch : Nat → Except Unit (List (MergeRequest Nat)) :=
  fun p => Except.ok (c1pages p)

/-- Witness for C1: a 100-item page followed by a 1-item page. -/
theorem C1_witness :
    fetchMergeRequests c1fetch 2 =
      some ((((List.range 2).map fun j => (c1pages j).map mkMRRecord).flatten),
        List.range 2, []) :=
  C1_fetchMergeRequests_run c1fetch c1pages 1 2
    (fun j hj => by
      have hj0 : j = 0 := by omega
      subst hj0
      exact ⟨rfl, by decide⟩)
    rfl (by decide) (by decide)

/-- C5: for every page size `P > 0` and every source list of `N` items,
both pagination loops emit exactly the `N` items in order, fetching pages
`0` through `N / P` — i.e. `N / P + 1` fetches, which is `⌈N / P⌉` when
`P` does not divide `N` (including a single fetch when `N < P`) and
`⌈N / P⌉ + 1` — one extra empty-or-short final fetch — when `N` is an
exact multiple of `P`; the loop terminates at page `N / P`, the first
page holding fewer than `P` items. -/
theorem C5_pagination_walker_counts {ι ρ : Type} (emit : ι → ρ) (items : List ι)
    (P fuel : Nat) (hP : 0 < P) (hfuel : items.length / P < fuel) :
    mrLoop (fun p => Except.ok (pagedFetch items P p)) emit P fuel 0
        = some (items.map emit, List.range (items.length / P + 1), ([] : List Unit)) ∧
    commitLoop (fun p => Except.ok (pagedFetch items P p)) emit P fuel 0
        = some (items.map emit, List.range (items.length / P + 1), ([] : List Unit)) ∧
    (∀ p, p < items.length / P → (pagedFetch items P p).length = P) ∧
    (pagedFetch items P (items.length / P)).length < P ∧
    (¬ P ∣ items.length → items.length / P + 1 = (items.length + P - 1) / P) ∧
    (P ∣ items.length → items.length / P + 1 = (items.length + P - 1) / P + 1) := by
  have hlen := pagedFetch_length items P hP
  have harith := paged_fetch_count_arith items.length P hP
  have hmr : mrLoop (fun p => Except.ok (pagedFetch items P p)) emit P fuel 0
      = some (items.map emit, List.range (items.length / P + 1), ([] : List Unit)) := by
    have h := mrLoop_ok_run0
      (fun p => (Except.ok (pagedFetch items P p) : Except Unit (List ι))) emit P
      (fun p => pagedFetch items P p) (items.length / P) fuel
      (fun j hj => ⟨rfl, Nat.le_of_eq (hlen.1 j hj).symm⟩)
      rfl hlen.2 hfuel
    rw [h]
    have h1 : ((List.range (items.length / P + 1)).map
          fun j => (pagedFetch items P j).map emit)
        = ((List.range (items.length / P + 1)).map
            fun j => pagedFetch items P j).map (List.map emit) := by
      rw [List.map_map]
      rfl
    have h2 : ((List.range (items.length / P + 1)).map
        fun j => pagedFetch items P j).flatten = items :=
      pagedFetch_flatten P hP items.length items (Nat.le_refl _)
    rw [h1, ← List.map_flatten, h2]
  refine ⟨hmr, ?_, hlen.1, hlen.2, harith.1, harith.2⟩
  rw [commitLoop_eq_mrLoop _ _ _ hP]
  exact hmr

/-- Witness for C5: five items, page size two — three fetches, the last
short. -/
theorem C5_witness :
    mrLoop (fun p => Except.ok (pagedFetch ([0, 1, 2, 3, 4] : List Nat) 2 p))
        (fun n => n) 2 3 0
      = some (([0, 1, 2, 3, 4] : List Nat).map (fun n => n),
          List.range (([0, 1, 2, 3, 4] : List Nat).length / 2 + 1), ([] : List Unit)) :=
  (C5_pagination_walker_counts (fun n => n) [0, 1, 2, 3, 4] 2 3 (by decide) (by decide)).1

/-- C3: when a page fetch inside a walker fails, the error is handed to
the accumulator's error-reporting capability and that stream's pagination
loop terminates after the failing page, fetching no further pages, while
other streams proceed.  First conjunct: the merge-request walker with
full pages before `k` and a failing fetch at page `k` reports exactly
that error, fetches exactly pages 0..k and keeps the earlier pages'
records.  Second conjunct: in the commit walker, a repository whose page
`k1` fetch fails reports the error and stops after page `k1`, and the
next configured repository is still collected in full. -/
theorem C3_page_error_aborts_stream {α γ E : Type}
    (fetch : Nat → Except E (List (MergeRequest α))) (l : Nat → List (MergeRequest α))
    (k : Nat) (e : E)
    (projects : List (Int × List Char)) (rep1 rep2 : List Char) (key1 key2 : Int)
    (fetchC : Int → Nat → Except E (List γ)) (m : Nat → List γ) (k1 : Nat) (e1 : E)
    (l2 : List γ) (fuel : Nat)
    (hfull : ∀ j, j < k → fetch j = Except.ok (l j) ∧ 100 ≤ (l j).length)
    (herr : fetch k = Except.error e) (hkfuel : k < fuel)
    (hr1 : mapkey projects rep1 = (key1, true))
    (hr2 : mapkey projects rep2 = (key2, true))
    (hfull1 : ∀ j, j < k1 → fetchC key1 j = Except.ok (m j) ∧ 100 ≤ (m j).length)
    (herr1 : fetchC key1 k1 = Except.error e1) (hk1fuel : k1 < fuel)
    (hok2 : fetchC key2 0 = Except.ok l2) (hl2 : l2.length < 100) :
    fetchMergeRequests fetch fuel =
      some ((((List.range k).map fun j => (l j).map mkMRRecord).flatten),
        List.range (k + 1), [e]) ∧
    fetchCommits projects [rep1, rep2] fetchC fuel =
      some ((((List.range k1).map fun j => (m j).map mkCommitRecord).flatten)
          ++ l2.map mkCommitRecord,
        ((List.range (k1 + 1)).map fun p => (key1, p)) ++ [(key2, 0)],
        [CommitErr.page rep1 e1]) := by
  constructor
  · unfold fetchMergeRequests
    exact mrLoop_err_run0 fetch mkMRRecord 100 l e k fuel hfull herr hkfuel
  · have hc1 : commitLoop (fetchC key1) mkCommitRecord 100 fuel 0
        = some ((((List.range k1).map fun j => (m j).map mkCommitRecord).flatten),
          List.range (k1 + 1), [e1]) := by
      rw [commitLoop_eq_mrLoop _ _ _ (by omega)]
      exact mrLoop_err_run0 (fetchC key1) mkCommitRecord 100 m e1 k1 fuel hfull1 herr1 hk1fuel
    have hc2 : commitLoop (fetchC key2) mkCommitRecord 100 fuel 0
        = some (l2.map mkCommitRecord, [0], ([] : List E)) := by
      rw [commitLoop_eq_mrLoop _ _ _ (by omega)]
      have h := mrLoop_ok_run0 (fetchC key2) mkCommitRecord 100 (fun _ => l2) 0 fuel
        (fun j hj => absurd hj (Nat.not_lt_zero j)) hok2 hl2 (by omega)
      rw [h]
      simp [range_one_eq]
    simp only [fetchCommits, hr1, hr2, hc1, hc2]
    simp

/-- Witness for C3: the merge-request fetch fails at page 0; repo "a"
(key 1) fails at its first commit page while repo "b" (key 2) delivers
one short page. -/
theorem C3_witness :
    fetchMergeRequests (fun _ => (Except.error () : Except Unit (List (MergeRequest Unit)))) 1 =
      some ((((List.range 0).map
          fun j => (([] : List (MergeRequest Unit))).map mkMRRecord).flatten),
        List.range 1, [()]) ∧
    fetchCommits [((1 : Int), ("a").data), ((2 : Int), ("b").data)]
        [("a").data, ("b").data]
        (fun key p => if key == 1 then (Except.error () : Except Unit (List Nat))
          else Except.ok (if p == 0 then [7] else [])) 1 =
      some ((((List.range 0).map fun j => (([] : List Nat)).map mkCommitRecord).flatten)
          ++ ([7] : List Nat).map mkCommitRecord,
        ((List.range 1).map fun p => ((1 : Int), p)) ++ [((2 : Int), 0)],
        [CommitErr.page (("a").data) ()]) :=
  C3_page_error_aborts_stream
    (fun _ => Except.error ()) (fun _ => []) 0 ()
    [((1 : Int), ("a").data), ((2 : Int), ("b").data)] (("a").data) (("b").data) 1 2
    (fun key p => if key == 1 then Except.error ()
      else Except.ok (if p == 0 then [7] else [])) (fun _ => []) 0 () [7] 1
    (fun j hj => absurd hj (Nat.not_lt_zero j)) rfl (by decide)
    (by decide) (by decide)
    (fun j hj => absurd hj (Nat.not_lt_zero j)) rfl (by decide)
    rfl (by decide)

/-- C9: on every abstract page source returning at most 100 items per
page and no error, the goto-based pagination of the early Gather variant
and the structured loop of the final fetchMergeRequests are equivalent
engines: for every fuel and cursor they return identical emitted items,
identical page-request sequences and identical error reports — the goto
loop continuing exactly on a page of exactly 100 items, the structured
loop exactly on a page of no fewer than the requested 100 — and every
terminating run from cursor 0 requests exactly pages 0, 1, 2, .... -/
theorem C9_goto_loop_refines_structured {ι ρ E : Type}
    (fetch : Nat → Except E (List ι)) (emit : ι → ρ)
    (hok : ∀ p, ∃ lp, fetch p = Except.ok lp ∧ lp.length ≤ 100) :
    (∀ fuel cp, gatherGotoLoop fetch emit fuel cp = mrLoop fetch emit 100 fuel cp) ∧
    (∀ fuel recs pages errs,
      gatherGotoLoop fetch emit fuel 0 = some (recs, pages, errs) →
      pages = List.range pages.length) := by
  have heq := gatherGotoLoop_eq_mrLoop fetch emit hok
  refine ⟨heq, ?_⟩
  intro fuel recs pages errs h
  rw [heq] at h
  have h2 := mrLoop_pages_consecutive fetch emit 100 fuel 0 recs pages errs h
  calc pages = (List.range pages.length).map fun j => 0 + j := h2
    _ = List.range pages.length := range_map_zero_add _

/-- One full page then an empty page, for the C9 witness. -/
def c9fetch : Nat → Except Unit (List Nat) :=
  fun p => Except.ok (if p == 0 then List.replicate 100 0 else [])

/-- Witness for C9: the two loops agree on a concrete two-page source. -/
theorem C9_witness :
    gatherGotoLoop c9fetch (fun n => n) 2 0 = mrLoop c9fetch (fun n => n) 100 2 0 :=
  (C9_goto_loop_refines_structured c9fetch (fun n => n)
    (fun p => ⟨if p == 0 then List.replicate 100 0 else [], rfl, by
      by_cases h : (p == 0) = true
      · rw [if_pos h]
        decide
      · rw [if_neg h]
        decide⟩)).1 2 0

/-- A three-page source (two full pages, then a short one) for the C2
evidence. -/
def c2pages : Nat → List (MergeRequest Nat)
  | 0 => List.replicate 100 ⟨[], 0⟩
  | 1 => List.replicate 100 ⟨[], 1⟩
  | _ => []

def c2fetch : Nat → Except Unit (List (MergeRequest Nat)) :=
  fun p => Except.ok (c2pages p)

/-- C2 evidence (the claim describes the spec's intent; the code violates
it).  With the shared cancellation signal already triggered before any
page is fetched (`ctx = fun _ => true`), the merge-request walker still
fetches all three pages — its body never reads the context, so
cancellation bounds nothing.  Moreover fetchCommits is launched by Start
but is not covered by the shutdown wait group (Start's single wg.Add(1)
is paired only with fetchMergeRequests' deferred Done), so Stop's wait
does not wait for the commit walker. -/
theorem C2_cancellation_not_observed :
    (fetchMergeRequestsCtx (fun _ => true) c2fetch 3).map (fun r => r.2.1) = some [0, 1, 2] ∧
    Worker.commits ∈ launchedWorkers ∧
    Worker.commits ∉ wgCoveredWorkers := by
  refine ⟨?_, by decide, by decide⟩
  have h := mrLoop_ok_run0 c2fetch mkMRRecord 100 c2pages 2 3
    (fun j hj => by
      have hj01 : j = 0 ∨ j = 1 := by omega
      rcases hj01 with hj0 | hj1
      · subst hj0
        exact ⟨rfl, by decide⟩
      · subst hj1
        exact ⟨rfl, by decide⟩)
    rfl (by decide) (by decide)
  unfold fetchMergeRequestsCtx fetchMergeRequests
  rw [h]
  rfl

/-- The commit source used for the C4 evidence: project key 0 — the
zero value mapkey returns for an unresolved name — holds one commit. -/
def c4fetchC : Int → Nat → Except Unit (List Nat) :=
  fun key page => if key == 0 && page == 0 then Except.ok [7] else Except.ok []

/-- C4 evidence (the claim describes the spec's intent; the code violates
it).  With ProjectLookup {1 ↦ "a"} and configured repository "c", which
has no exact-name match, fetchCommits reports the resolution error but
does not skip the repository: the source has no `continue`, so the page
loop still runs with the zero-value key 0, fetches page (0, 0) and emits
that page's record. -/
theorem C4_unresolved_repo_not_skipped :
    mapkey [((1 : Int), ("a").data)] (("c").data) = (0, false) ∧
    fetchCommits [((1 : Int), ("a").data)] [("c").data] c4fetchC 1 =
      some ([⟨7⟩], [((0 : Int), 0)], [CommitErr.resolve]) := by
  constructor
  · decide
  · decide

/-- C10: calling Stop on a collector on which Start has never been
invoked dereferences the nil zero values of the cancellation function and
the wait group and panics; only Start's initialisation fills these
fields, after which Stop returns normally — so Stop carries the unstated
precondition that a Start call precedes it. -/
theorem C10_stop_without_start_panics :
    runStop initialGitlab = StopOutcome.panicked ∧
    initialGitlab.cancel = none ∧ initialGitlab.wg = none ∧
    (startInit initialGitlab).cancel = some () ∧
    (startInit initialGitlab).wg = some () ∧
    runStop (startInit initialGitlab) = StopOutcome.returned := by
  decide

